import Mathlib

/-!
Verification of the streaming speech-to-text orchestration client
(`src/stt-rs/src/main.rs`) and of its liveness-probe service
(`src/services/health-check/src/main.rs`).

The embedding models:
* the audio preprocessing of `Model::run` (silence prefix and trailing pad),
* the event-driven transcript assembler of `Model::run` (the `match` on
  `moshi::asr::AsrMsg` plus the end-of-stream flush), with `f64`/`f32`
  times and probabilities modelled as rationals and the printed output
  modelled as a list of structured output items, and
* the `/health` handler of the probe service, with the outcome of the
  outbound websocket attempt made explicit.
-/

/-- The `stt_config` section of the model configuration
(`SttConfig` in `src/stt-rs/src/main.rs`). Durations in seconds,
modelled as rationals. -/
structure SttConfig where
  audio_silence_prefix_seconds : ℚ
  audio_delay_seconds : ℚ

/-- Rust's `as usize` cast on a non-NaN `f64`: truncation toward zero,
saturating at `0` from below. For `q ≥ 0` this is `⌊q⌋`; for `q < 0` both
truncation-then-saturation and `⌊q⌋.toNat` give `0`. -/
def f64ToUsize (q : ℚ) : ℕ := ⌊q⌋.toNat

/-- The audio preprocessing at the start of `Model::run`
(`src/stt-rs/src/main.rs`, lines 175-183): if
`audio_silence_prefix_seconds > 0`, splice that many seconds of zero
samples (at 24000 Hz) in front of the waveform; then `resize` to append
`audio_delay_seconds * 24000 + 24000` trailing zero samples. -/
def preprocess (cfg : SttConfig) (pcm : List ℚ) : List ℚ :=
  let pcm1 :=
    if cfg.audio_silence_prefix_seconds > 0 then
      List.replicate (f64ToUsize (cfg.audio_silence_prefix_seconds * 24000)) 0 ++ pcm
    else pcm
  let suffix := f64ToUsize (cfg.audio_delay_seconds * 24000)
  pcm1 ++ List.replicate (suffix + 24000) 0

/-- Decoder events, mirroring the three `moshi::asr::AsrMsg` variants as
consumed by `Model::run`. `step` carries `prs`, a per-horizon list of
probability rows (the code reads `prs[2][0]`); `word` carries the token
ids and the start time; `endWord` carries the stop time. -/
inductive AsrMsg where
  | step (prs : List (List ℚ))
  | endWord (stop_time : ℚ)
  | word (tokens : List ℕ) (start_time : ℚ)
  deriving DecidableEq

/-- Is this event a `Word` event? -/
def AsrMsg.isWord : AsrMsg → Bool
  | .word _ _ => true
  | _ => false

/-- Is this event a `Step` event? -/
def AsrMsg.isStep : AsrMsg → Bool
  | .step _ => true
  | _ => false

/-- One piece of output produced by `Model::run`, structurally:
* `eot pr` — an end-of-turn marker carrying probability `pr` (its text
  uses the platform float formatter and is not modelled further);
* `word text` — the immediate non-timestamped print of a space followed
  by the word text;
* `timestamped start_time stop_time text` — one timestamped word line,
  with `stop_time = none` for the open-ended end-of-stream flush. -/
inductive OutEvt where
  | eot (pr : ℚ)
  | word (text : String)
  | timestamped (start_time : ℚ) (stop_time : Option ℚ) (text : String)
  deriving DecidableEq

/-- Is this output item a timestamped word line? -/
def OutEvt.isTimestamped : OutEvt → Bool
  | .timestamped _ _ _ => true
  | _ => false

/-- Is this output item an end-of-turn marker? -/
def OutEvt.isEot : OutEvt → Bool
  | .eot _ => true
  | _ => false

/-- The mutable state of the assembler loop in `Model::run`:
`last_word` (the pending word/start-time pair) and the `printed_eot`
latch. -/
structure RunState where
  last_word : Option (String × ℚ)
  printed_eot : Bool
  deriving DecidableEq

/-- One step of the assembler: the `match asr_msg` block of `Model::run`
(`src/stt-rs/src/main.rs`, lines 191-232), parameterised by the
`timestamps` and `vad` flags and by the external tokenizer `dec`
(`decode_piece_ids`, with `none` modelling a decode error, which the
code replaces by the empty string via `unwrap_or_else`). The threshold
`0.5` is written `mkRat 1 2`. Returns the updated state and the output
items printed by this event. -/
def runMsg (ts vad : Bool) (dec : List ℕ → Option String)
    (s : RunState) : AsrMsg → RunState × List OutEvt
  | .step prs =>
      let pr := (prs.getD 2 []).getD 0 0
      if vad = true ∧ mkRat 1 2 < pr ∧ s.printed_eot = false then
        (⟨s.last_word, true⟩, [.eot pr])
      else (s, [])
  | .endWord stop_time =>
      if ts = true then
        match s.last_word with
        | some (word, start_time) =>
            (⟨none, false⟩, [.timestamped start_time (some stop_time) word])
        | none => (⟨none, false⟩, [])
      else (⟨s.last_word, false⟩, [])
  | .word tokens start_time =>
      let text := (dec tokens).getD ""
      if ts = true then
        match s.last_word with
        | some (pw, prev_start_time) =>
            (⟨some (text, start_time), false⟩,
             [.timestamped prev_start_time (some start_time) pw])
        | none => (⟨some (text, start_time), false⟩, [])
      else (⟨s.last_word, false⟩, [.word text])

/-- The assembler run over a list of events, threading the state and
concatenating the outputs in arrival order. Since `Model::run` handles
the events of every frame in order with the same per-event `match`,
flattening the per-frame event lists into one list is faithful. -/
def runMsgs (ts vad : Bool) (dec : List ℕ → Option String) :
    RunState → List AsrMsg → RunState × List OutEvt
  | s, [] => (s, [])
  | s, m :: rest =>
      let r1 := runMsg ts vad dec s m
      let r2 := runMsgs ts vad dec r1.1 rest
      (r2.1, r1.2 ++ r2.2)

/-- A whole run of the assembler from the initial state
(`last_word = None`, `printed_eot = false`), including the
end-of-stream flush of `Model::run` (lines 235-237): a still-pending
word is printed with an open-ended stop time. The final empty
`println!()` is not part of the transcript and is not modelled. -/
def run (ts vad : Bool) (dec : List ℕ → Option String)
    (msgs : List AsrMsg) : List OutEvt :=
  let r := runMsgs ts vad dec ⟨none, false⟩ msgs
  r.2 ++
    (match r.1.last_word with
     | some (word, start_time) => [.timestamped start_time none word]
     | none => [])

/-- The number of hundredths of a second in a time, rounded to the
nearest integer: the value printed by Rust's two-decimal format. The
rounding is exact on every value this development evaluates (integer
multiples of 1/100); times printed by the program are non-negative. -/
def hundredths (q : ℚ) : ℕ := ⌊q * 100 + 1/2⌋.toNat

/-- Rendering of `c` hundredths in Rust's 5.2 float format: two decimal
digits, right-aligned in a field of width five, padded with spaces. -/
def fmt52n (c : ℕ) : String :=
  let fracStr := if c % 100 < 10 then "0" ++ toString (c % 100) else toString (c % 100)
  let s := toString (c / 100) ++ "." ++ fracStr
  String.mk (List.replicate (5 - s.length) ' ') ++ s

/-- Rust's 5.2 float format for a non-negative time in seconds. -/
def fmt52 (q : ℚ) : String := fmt52n (hundredths q)

/-- The textual rendering of the word output items, following the
format strings of `Model::run`: a space followed by the word for the
non-timestamped path, `[start-stop] word` with both times in 5.2
format for a closed span, and five spaces in place of the stop time for
the end-of-stream flush. End-of-turn markers render their probability
with the platform float formatter and are left structural (`none`). -/
def render : OutEvt → Option String
  | .eot _ => none
  | .word w => some (" " ++ w)
  | .timestamped st (some sp) w =>
      some ("[" ++ fmt52 st ++ "-" ++ fmt52 sp ++ "] " ++ w)
  | .timestamped st none w =>
      some ("[" ++ fmt52 st ++ "-     ] " ++ w)

/-- A concrete tokenizer for the test scenarios: token list `[1]`
decodes to `"hello"`, `[2]` to `"world"`, `[3]` to `"hi"`, anything
else fails. -/
def decEx : List ℕ → Option String
  | [1] => some "hello"
  | [2] => some "world"
  | [3] => some "hi"
  | _ => none

/-- Count of timestamped word lines in an output. -/
def tsCount (out : List OutEvt) : ℕ := out.countP OutEvt.isTimestamped

/-- Count of end-of-turn markers in an output. -/
def eotCount (out : List OutEvt) : ℕ := out.countP OutEvt.isEot

/-- Count of `Word` events in an event sequence. -/
def wordCount (msgs : List AsrMsg) : ℕ := msgs.countP AsrMsg.isWord

/-- `1` if a word is pending in the state, else `0`. -/
def pendCount (s : RunState) : ℕ := if s.last_word.isSome then 1 else 0

/-- Outcome of the probe's outbound websocket attempt: the connection
succeeded within the 5 s ceiling, failed with an error, or timed out. -/
inductive WsOutcome where
  | connected
  | connectFailed (e : String)
  | timedOut
  deriving DecidableEq

/-- `check_websocket` from `src/services/health-check/src/main.rs`
(lines 32-42): success yields `Ok(true)`; a connection error or the 5 s
timeout yields a descriptive `Err` string. -/
def check_websocket : WsOutcome → Except String Bool
  | .connected => .ok true
  | .connectFailed e => .error ("WebSocket connection failed: " ++ e)
  | .timedOut => .error "WebSocket connection timeout"

/-- The JSON body of the `/health` response (`HealthResponse` in
`src/services/health-check/src/main.rs`). -/
structure HealthResponse where
  status : String
  websocket_available : Bool
  timestamp : ℕ
  service : String
  error : Option String
  deriving DecidableEq

/-- `health_handler` from `src/services/health-check/src/main.rs`
(lines 44-74), as a pure function of the websocket check result and the
current unix time `now`: returns the HTTP status code and the response
body. -/
def health_handler (ws_check : Except String Bool) (now : ℕ) :
    ℕ × HealthResponse :=
  let wsErr : Bool × Option String :=
    match ws_check with
    | .ok available => (available, none)
    | .error e => (false, some e)
  let ws_available := wsErr.1
  let status := if ws_available then "healthy" else "degraded"
  let http_status := if ws_available then 200 else 503
  (http_status, ⟨status, ws_available, now, "kyutai-stt-server", wsErr.2⟩)

lemma runMsgs_cons (ts vad : Bool) (dec : List ℕ → Option String)
    (s : RunState) (m : AsrMsg) (rest : List AsrMsg) :
    runMsgs ts vad dec s (m :: rest) =
      ((runMsgs ts vad dec (runMsg ts vad dec s m).1 rest).1,
       (runMsg ts vad dec s m).2 ++
         (runMsgs ts vad dec (runMsg ts vad dec s m).1 rest).2) := rfl

lemma hundredths_zero : hundredths 0 = 0 := by
  have h : ((0 : ℚ) * 100 + 1/2) = 1/2 := by norm_num
  unfold hundredths
  rw [h]
  have h2 : ⌊(1/2 : ℚ)⌋ = 0 := by
    rw [Int.floor_eq_iff]
    norm_num
  rw [h2]
  rfl

lemma hundredths_two_fifths : hundredths (mkRat 2 5) = 40 := by
  have h : ((mkRat 2 5 : ℚ) * 100 + 1/2) = 81/2 := by
    rw [Rat.mkRat_eq_div]
    norm_num
  unfold hundredths
  rw [h]
  have h2 : ⌊(81/2 : ℚ)⌋ = 40 := by
    rw [Int.floor_eq_iff]
    norm_num
  rw [h2]
  rfl

/-- Claim C2: with timestamps enabled, the event sequence
`Word{"hello", 0.0}`, `Word{"world", 0.4}` followed by end of stream
produces the line `[ 0.00- 0.40] hello` and then the line
`[ 0.40-     ] world`, in that order. -/
theorem word_word_eos_timestamped_scenario :
    run true false decEx [.word [1] 0, .word [2] (mkRat 2 5)] =
      [.timestamped 0 (some (mkRat 2 5)) "hello",
       .timestamped (mkRat 2 5) none "world"]
    ∧ (run true false decEx [.word [1] 0, .word [2] (mkRat 2 5)]).filterMap render =
      ["[ 0.00- 0.40] hello", "[ 0.40-     ] world"] := by
  have h1 : run true false decEx [.word [1] 0, .word [2] (mkRat 2 5)] =
      [.timestamped 0 (some (mkRat 2 5)) "hello",
       .timestamped (mkRat 2 5) none "world"] := by decide
  refine ⟨h1, ?_⟩
  rw [h1]
  simp [render, fmt52, hundredths_zero, hundredths_two_fifths]
  decide

/-- Claim C1 (counterexample): with timestamps enabled, an `EndWord`
event arriving while a word is pending does produce an output line —
the pending word closed by the stop time — contradicting the claim that
it updates bookkeeping only. -/
theorem endword_no_output_counterexample :
    runMsgs true false decEx ⟨none, false⟩ [.word [3] 0] =
      (⟨some ("hi", 0), false⟩, [])
    ∧ runMsg true false decEx ⟨some ("hi", 0), false⟩ (.endWord (mkRat 1 2)) =
      (⟨none, false⟩, [.timestamped 0 (some (mkRat 1 2)) "hi"]) := by
  decide

/-- Claim C1 (amended): with timestamps enabled, an `EndWord` event
clears the latch and, when a word is pending, flushes it immediately as
a timestamped line closed by the event's stop time, clearing the
pending slot; only when no word is pending does it produce no output. -/
theorem endword_flushes_pending_word (vad : Bool)
    (dec : List ℕ → Option String) (s : RunState) (stop_time : ℚ) :
    runMsg true vad dec s (.endWord stop_time) =
      (⟨none, false⟩,
       match s.last_word with
       | some (word, start_time) => [.timestamped start_time (some stop_time) word]
       | none => []) := by
  cases hl : s.last_word with
  | none => simp [runMsg, hl]
  | some p =>
      cases p with
      | mk w st => simp [runMsg, hl]

/-- Claim C4: with VAD mode on and the latch clear, a `Step` whose
activity probabilities carry 0.6 at horizon index 2 emits exactly one
end-of-turn marker with probability 0.6, and an immediately following
`Step` carrying 0.7 there emits nothing because the latch is set. -/
theorem vad_step_latch_scenario :
    runMsg false true decEx ⟨none, false⟩
        (.step [[mkRat 1 10], [mkRat 1 5], [mkRat 3 5], [mkRat 3 10]]) =
      (⟨none, true⟩, [.eot (mkRat 3 5)])
    ∧ runMsgs false true decEx ⟨none, false⟩
        [.step [[mkRat 1 10], [mkRat 1 5], [mkRat 3 5], [mkRat 3 10]],
         .step [[mkRat 1 10], [mkRat 1 5], [mkRat 7 10], [mkRat 3 10]]] =
      (⟨none, true⟩, [.eot (mkRat 3 5)]) := by
  decide

/-- Claim C5: for every waveform and non-negative silence prefix, the
preprocessed waveform's length is the original length plus the prefix
sample count plus the delay sample count plus 24000; and when the
prefix duration is not positive the prefix padding is skipped entirely,
leaving only the appended trailing zeros. -/
theorem preprocess_length (cfg : SttConfig) (pcm : List ℚ) :
    (0 ≤ cfg.audio_silence_prefix_seconds →
      (preprocess cfg pcm).length =
        pcm.length + f64ToUsize (cfg.audio_silence_prefix_seconds * 24000)
          + (f64ToUsize (cfg.audio_delay_seconds * 24000) + 24000))
    ∧ (cfg.audio_silence_prefix_seconds ≤ 0 →
      preprocess cfg pcm =
        pcm ++ List.replicate (f64ToUsize (cfg.audio_delay_seconds * 24000) + 24000) 0) := by
  constructor
  · intro h
    unfold preprocess
    by_cases hp : cfg.audio_silence_prefix_seconds > 0
    · simp [hp]
      omega
    · have h0 : cfg.audio_silence_prefix_seconds = 0 := le_antisymm (not_lt.mp hp) h
      simp [hp, h0, f64ToUsize]
  · intro h
    unfold preprocess
    rw [if_neg (not_lt.mpr h)]

/-- Witness for `preprocess_length` at a half-second prefix on a
one-sample waveform, and at a zero prefix. -/
theorem preprocess_length_witness :
    (preprocess ⟨mkRat 1 2, 0⟩ [1]).length = 1 + 12000 + (0 + 24000)
    ∧ preprocess ⟨0, 0⟩ [1] = [1] ++ List.replicate (0 + 24000) 0 := by
  have e1 : f64ToUsize ((mkRat 1 2 : ℚ) * 24000) = 12000 := by
    have h : ((mkRat 1 2 : ℚ) * 24000) = 12000 := by
      rw [Rat.mkRat_eq_div]
      norm_num
    unfold f64ToUsize
    rw [h]
    have h2 : ⌊(12000 : ℚ)⌋ = 12000 := by norm_num
    rw [h2]
    rfl
  have e2 : f64ToUsize ((0 : ℚ) * 24000) = 0 := by simp [f64ToUsize]
  constructor
  · have h := (preprocess_length ⟨mkRat 1 2, 0⟩ [1]).1 (by decide)
    rw [h]
    simp only [e1, e2, List.length_cons, List.length_nil]
  · have h := (preprocess_length ⟨0, 0⟩ [1]).2 (by decide)
    rw [h, e2]

/-- Claim C8: with timestamps disabled, each `Word` event immediately
emits a space followed by the word's text, the hello/world scenario
streams as the single string " hello world", and `EndWord` events
produce no output in this mode. -/
theorem no_timestamps_immediate_words (vad : Bool)
    (dec : List ℕ → Option String) :
    (∀ (s : RunState) (tokens : List ℕ) (start_time : ℚ),
      runMsg false vad dec s (.word tokens start_time) =
        (⟨s.last_word, false⟩, [.word ((dec tokens).getD "")]))
    ∧ (∀ w, render (.word w) = some (" " ++ w))
    ∧ String.join
        ((run false false decEx [.word [1] 0, .word [2] (mkRat 2 5)]).filterMap render)
        = " hello world"
    ∧ (∀ (s : RunState) (stop_time : ℚ),
        (runMsg false vad dec s (.endWord stop_time)).2 = []) := by
  refine ⟨fun s tokens st => by simp [runMsg], fun w => rfl, by decide,
    fun s stop => by simp [runMsg]⟩

/-- Claim C9: the `/health` handler returns HTTP 200 with status
"healthy" when the websocket check succeeds, and HTTP 503 with status
"degraded", `websocket_available = false` and an error message in the
payload when the connection fails or times out — the failure is
converted into the response rather than propagated. -/
theorem health_endpoint_status (o : WsOutcome) (now : ℕ) :
    (o = .connected →
      health_handler (check_websocket o) now =
        (200, ⟨"healthy", true, now, "kyutai-stt-server", none⟩))
    ∧ (∀ e, o = .connectFailed e →
      health_handler (check_websocket o) now =
        (503, ⟨"degraded", false, now, "kyutai-stt-server",
               some ("WebSocket connection failed: " ++ e)⟩))
    ∧ (o = .timedOut →
      health_handler (check_websocket o) now =
        (503, ⟨"degraded", false, now, "kyutai-stt-server",
               some "WebSocket connection timeout"⟩)) := by
  refine ⟨fun h => ?_, fun e h => ?_, fun h => ?_⟩ <;> subst h <;> rfl

/-- Witness for `health_endpoint_status` at a successful check, a
failed connection and a timeout. -/
theorem health_endpoint_status_witness :
    health_handler (check_websocket .connected) 7 =
      (200, ⟨"healthy", true, 7, "kyutai-stt-server", none⟩)
    ∧ health_handler (check_websocket (.connectFailed "refused")) 7 =
      (503, ⟨"degraded", false, 7, "kyutai-stt-server",
             some "WebSocket connection failed: refused"⟩)
    ∧ health_handler (check_websocket .timedOut) 7 =
      (503, ⟨"degraded", false, 7, "kyutai-stt-server",
             some "WebSocket connection timeout"⟩) :=
  ⟨(health_endpoint_status .connected 7).1 rfl,
   (health_endpoint_status (.connectFailed "refused") 7).2.1 "refused" rfl,
   (health_endpoint_status .timedOut 7).2.2 rfl⟩

lemma runMsg_no_ts_preserves_last_word (vad : Bool)
    (dec : List ℕ → Option String) (s : RunState) (m : AsrMsg) :
    (runMsg false vad dec s m).1.last_word = s.last_word := by
  cases m with
  | step prs =>
      simp only [runMsg]
      split
      · rfl
      · rfl
  | endWord st => simp [runMsg]
  | word t st => simp [runMsg]

lemma runMsgs_no_ts_preserves_last_word (vad : Bool)
    (dec : List ℕ → Option String) :
    ∀ (msgs : List AsrMsg) (s : RunState),
      (runMsgs false vad dec s msgs).1.last_word = s.last_word
  | [], _ => rfl
  | m :: rest, s => by
      rw [runMsgs_cons]
      rw [runMsgs_no_ts_preserves_last_word vad dec rest (runMsg false vad dec s m).1]
      exact runMsg_no_ts_preserves_last_word vad dec s m

/-- Claim C10: with timestamps disabled, the pending-word slot is
`none` after processing any event sequence from the initial state, so
the end-of-stream flush never adds output in that mode and the whole
run equals the per-event output alone. -/
theorem no_timestamps_no_pending_word (vad : Bool)
    (dec : List ℕ → Option String) (msgs : List AsrMsg) :
    (runMsgs false vad dec ⟨none, false⟩ msgs).1.last_word = none
    ∧ run false vad dec msgs = (runMsgs false vad dec ⟨none, false⟩ msgs).2 := by
  have h := runMsgs_no_ts_preserves_last_word vad dec msgs ⟨none, false⟩
  refine ⟨h, ?_⟩
  have hrun : run false vad dec msgs =
      (runMsgs false vad dec ⟨none, false⟩ msgs).2 ++
        (match (runMsgs false vad dec ⟨none, false⟩ msgs).1.last_word with
         | some (word, start_time) => [OutEvt.timestamped start_time none word]
         | none => []) := rfl
  rw [hrun, h]
  simp

lemma runMsg_step_latched (ts vad : Bool) (dec : List ℕ → Option String)
    (s : RunState) (prs : List (List ℚ)) (h : s.printed_eot = true) :
    runMsg ts vad dec s (.step prs) = (s, []) := by
  simp [runMsg, h]

lemma runMsgs_steps_latched (ts vad : Bool) (dec : List ℕ → Option String) :
    ∀ (msgs : List AsrMsg), (∀ m ∈ msgs, m.isStep = true) →
      ∀ s : RunState, s.printed_eot = true → runMsgs ts vad dec s msgs = (s, [])
  | [], _, _, _ => rfl
  | m :: rest, h, s, hs => by
      cases m with
      | step prs =>
          rw [runMsgs_cons, runMsg_step_latched ts vad dec s prs hs]
          rw [runMsgs_steps_latched ts vad dec rest
            (fun x hx => h x (List.mem_cons_of_mem _ hx)) s hs]
          rfl
      | endWord st =>
          have := h _ (List.mem_cons_self _ _)
          simp [AsrMsg.isStep] at this
      | word t st =>
          have := h _ (List.mem_cons_self _ _)
          simp [AsrMsg.isStep] at this

lemma runMsgs_steps_eotCount (ts vad : Bool) (dec : List ℕ → Option String) :
    ∀ (msgs : List AsrMsg), (∀ m ∈ msgs, m.isStep = true) →
      ∀ s : RunState, eotCount (runMsgs ts vad dec s msgs).2 ≤ 1
  | [], _, _ => by simp [runMsgs, eotCount]
  | m :: rest, h, s => by
      cases m with
      | step prs =>
          rw [runMsgs_cons]
          by_cases hc : vad = true ∧ mkRat 1 2 < (prs.getD 2 []).getD 0 0
              ∧ s.printed_eot = false
          · have h1 : runMsg ts vad dec s (.step prs) =
                (⟨s.last_word, true⟩, [.eot ((prs.getD 2 []).getD 0 0)]) := by
              simp only [runMsg]
              rw [if_pos hc]
            rw [h1]
            rw [runMsgs_steps_latched ts vad dec rest
              (fun x hx => h x (List.mem_cons_of_mem _ hx)) ⟨s.last_word, true⟩ rfl]
            simp [eotCount, OutEvt.isEot]
          · have h1 : runMsg ts vad dec s (.step prs) = (s, []) := by
              simp only [runMsg]
              rw [if_neg hc]
            rw [h1]
            simpa using runMsgs_steps_eotCount ts vad dec rest
              (fun x hx => h x (List.mem_cons_of_mem _ hx)) s
      | endWord st =>
          have := h _ (List.mem_cons_self _ _)
          simp [AsrMsg.isStep] at this
      | word t st =>
          have := h _ (List.mem_cons_self _ _)
          simp [AsrMsg.isStep] at this

/-- Claim C3: a `Step` event emits an end-of-turn marker only when the
latch is clear and emitting sets the latch; consequently a run of
consecutive `Step` events (no intervening `Word` or `EndWord` clearing
the latch) emits at most one end-of-turn marker. -/
theorem eot_latch_gating (ts vad : Bool) (dec : List ℕ → Option String) :
    (∀ (s : RunState) (prs : List (List ℚ)),
      (runMsg ts vad dec s (.step prs)).2 ≠ [] →
        s.printed_eot = false ∧ (runMsg ts vad dec s (.step prs)).1.printed_eot = true)
    ∧ ∀ (s : RunState) (msgs : List AsrMsg), (∀ m ∈ msgs, m.isStep = true) →
        eotCount (runMsgs ts vad dec s msgs).2 ≤ 1 := by
  constructor
  · intro s prs hne
    by_cases hc : vad = true ∧ mkRat 1 2 < (prs.getD 2 []).getD 0 0
        ∧ s.printed_eot = false
    · refine ⟨hc.2.2, ?_⟩
      simp only [runMsg]
      rw [if_pos hc]
    · exfalso
      apply hne
      simp only [runMsg]
      rw [if_neg hc]
  · intro s msgs h
    exact runMsgs_steps_eotCount ts vad dec msgs h s

/-- Witness for `eot_latch_gating`: a concrete latch-setting step and a
concrete all-steps sequence emitting one marker. -/
theorem eot_latch_gating_witness :
    ((⟨none, false⟩ : RunState).printed_eot = false
      ∧ (runMsg false true decEx ⟨none, false⟩
          (.step [[0], [0], [1], [0]])).1.printed_eot = true)
    ∧ eotCount (runMsgs false true decEx ⟨none, false⟩
        [.step [[0], [0], [1], [0]], .step [[0], [0], [1], [0]]]).2 ≤ 1 :=
  ⟨(eot_latch_gating false true decEx).1 ⟨none, false⟩ [[0], [0], [1], [0]]
      (by decide),
   (eot_latch_gating false true decEx).2 ⟨none, false⟩
      [.step [[0], [0], [1], [0]], .step [[0], [0], [1], [0]]] (by decide)⟩

lemma tsCount_append (a b : List OutEvt) :
    tsCount (a ++ b) = tsCount a + tsCount b := by
  simp [tsCount, List.countP_append]

lemma runMsg_ts_tsCount (vad : Bool) (dec : List ℕ → Option String)
    (s : RunState) (m : AsrMsg) :
    tsCount (runMsg true vad dec s m).2 + pendCount (runMsg true vad dec s m).1
      = pendCount s + (if m.isWord then 1 else 0) := by
  cases m with
  | step prs =>
      simp only [runMsg]
      split
      · simp [tsCount, pendCount, OutEvt.isTimestamped, AsrMsg.isWord]
      · simp [tsCount, pendCount, AsrMsg.isWord]
  | endWord st =>
      cases hl : s.last_word with
      | none => simp [runMsg, hl, tsCount, pendCount, AsrMsg.isWord]
      | some p =>
          cases p with
          | mk w t =>
              simp [runMsg, hl, tsCount, pendCount, AsrMsg.isWord,
                OutEvt.isTimestamped]
  | word tk st =>
      cases hl : s.last_word with
      | none => simp [runMsg, hl, tsCount, pendCount, AsrMsg.isWord]
      | some p =>
          cases p with
          | mk w t =>
              simp [runMsg, hl, tsCount, pendCount, AsrMsg.isWord,
                OutEvt.isTimestamped]

lemma runMsgs_ts_tsCount (vad : Bool) (dec : List ℕ → Option String) :
    ∀ (msgs : List AsrMsg) (s : RunState),
      tsCount (runMsgs true vad dec s msgs).2
          + pendCount (runMsgs true vad dec s msgs).1
        = pendCount s + wordCount msgs
  | [], s => by simp [runMsgs, tsCount, wordCount]
  | m :: rest, s => by
      have h1 := runMsg_ts_tsCount vad dec s m
      have h2 := runMsgs_ts_tsCount vad dec rest (runMsg true vad dec s m).1
      have h3 : wordCount (m :: rest) =
          wordCount rest + (if m.isWord then 1 else 0) := by
        simp [wordCount, List.countP_cons]
      rw [runMsgs_cons]
      dsimp only
      rw [tsCount_append, h3]
      cases hw : m.isWord
      all_goals rw [hw] at h1 h3
      all_goals simp only [Bool.false_eq_true, if_false, if_true] at h1 h3 ⊢
      all_goals omega

/-- Claim C6: with timestamps enabled, every event sequence yields
exactly as many timestamped word lines (including the end-of-stream
flush of a still-pending word) as there are `Word` events. -/
theorem timestamped_lines_equal_word_events (vad : Bool)
    (dec : List ℕ → Option String) (msgs : List AsrMsg) :
    tsCount (run true vad dec msgs) = wordCount msgs := by
  have h := runMsgs_ts_tsCount vad dec msgs ⟨none, false⟩
  have hrun : run true vad dec msgs =
      (runMsgs true vad dec ⟨none, false⟩ msgs).2 ++
        (match (runMsgs true vad dec ⟨none, false⟩ msgs).1.last_word with
         | some (word, start_time) => [OutEvt.timestamped start_time none word]
         | none => []) := rfl
  rw [hrun, tsCount_append]
  have hinit : pendCount (⟨none, false⟩ : RunState) = 0 := rfl
  rw [hinit] at h
  cases hl : (runMsgs true vad dec ⟨none, false⟩ msgs).1.last_word with
  | none =>
      have hp : pendCount (runMsgs true vad dec ⟨none, false⟩ msgs).1 = 0 := by
        simp [pendCount, hl]
      rw [hp] at h
      dsimp only
      have ht : tsCount ([] : List OutEvt) = 0 := rfl
      rw [ht]
      omega
  | some p =>
      cases p with
      | mk w t =>
          have hp : pendCount (runMsgs true vad dec ⟨none, false⟩ msgs).1 = 1 := by
            simp [pendCount, hl]
          rw [hp] at h
          dsimp only
          have ht : tsCount [OutEvt.timestamped t none w] = 1 := by
            simp [tsCount, OutEvt.isTimestamped]
          rw [ht]
          omega

/-- Claim C7: when decoding one word's token ids fails, that word's
text is the empty string (in both output modes) and the assembler still
processes all subsequent events from the updated state; a decode
failure never aborts the run. -/
theorem token_decode_failure_recovers (ts vad : Bool)
    (dec : List ℕ → Option String) (s : RunState) (tokens : List ℕ)
    (start_time : ℚ) (rest : List AsrMsg) (h : dec tokens = none) :
    runMsg ts vad dec s (.word tokens start_time) =
      (if ts = true then
        (⟨some ("", start_time), false⟩,
         match s.last_word with
         | some (pw, prev_start_time) =>
             [.timestamped prev_start_time (some start_time) pw]
         | none => [])
      else (⟨s.last_word, false⟩, [.word ""]))
    ∧ runMsgs ts vad dec s (.word tokens start_time :: rest) =
        ((runMsgs ts vad dec (runMsg ts vad dec s (.word tokens start_time)).1 rest).1,
         (runMsg ts vad dec s (.word tokens start_time)).2 ++
           (runMsgs ts vad dec (runMsg ts vad dec s (.word tokens start_time)).1 rest).2) := by
  refine ⟨?_, runMsgs_cons ts vad dec s (.word tokens start_time) rest⟩
  cases hts : ts
  · simp [runMsg, h]
  · cases hl : s.last_word with
    | none => simp [runMsg, h, hl]
    | some p =>
        cases p with
        | mk w t => simp [runMsg, h, hl]

/-- Witness for `token_decode_failure_recovers`: the concrete tokenizer
fails on token list `[9]`, the word renders empty, and the following
event is still processed. -/
theorem token_decode_failure_recovers_witness :
    decEx [9] = none
    ∧ runMsg false true decEx ⟨none, false⟩ (.word [9] 0) =
        (⟨none, false⟩, [.word ""])
    ∧ runMsgs false true decEx ⟨none, false⟩ [.word [9] 0, .word [1] (mkRat 2 5)] =
        ((runMsgs false true decEx (runMsg false true decEx ⟨none, false⟩ (.word [9] 0)).1
            [.word [1] (mkRat 2 5)]).1,
         (runMsg false true decEx ⟨none, false⟩ (.word [9] 0)).2 ++
           (runMsgs false true decEx (runMsg false true decEx ⟨none, false⟩ (.word [9] 0)).1
             [.word [1] (mkRat 2 5)]).2) := by
  have h := token_decode_failure_recovers false true decEx ⟨none, false⟩ [9] 0
      [.word [1] (mkRat 2 5)] rfl
  exact ⟨rfl, h.1, h.2⟩
